import Mathlib

/-!
Verification of the `build.py` build helper: a shallow embedding of its
argument scanner, directory preparation, and compiler invocation, with
theorems about the properties of the script.
-/

namespace BuildPy

/-- Default architecture label (`arch = "aarch64"` in `main`). -/
def defaultArch : String := "aarch64"

/-- Default output directory (`output = "build/libjava-tree-sitter"` in `main`). -/
def defaultOutput : String := "build/libjava-tree-sitter"

/-- Fixed artifact file name joined onto the output directory. -/
def dylibName : String := "libjava-tree-sitter.dylib"

/-- The fixed one-line stub source fed to the compiler over stdin
(`void foo()` followed by an empty brace pair). -/
def stubSource : String := "void foo()\x7b\x7d"

/-- The CLI argument scanner of `main`: the `for i, arg in enumerate(args)` loop
with one-token lookahead.  At each position, if the token is `-a` and a next
token exists, that next token becomes `arch`; else if the token is `-o` and a
next token exists, that next token becomes `output`; otherwise the token is
ignored.  The loop then moves on to the next position (the value token itself
is examined again as a potential flag), which is structural recursion on the
list keeping the lookahead token at the head. -/
def scanArgs : List String → String → String → String × String
  | [], arch, output => (arch, output)
  | [_], arch, output => (arch, output)
  | a :: v :: rest, arch, output =>
    if a = "-a" then scanArgs (v :: rest) v output
    else if a = "-o" then scanArgs (v :: rest) arch v
    else scanArgs (v :: rest) arch output

/-- Parse the full argument list (sans program name) starting from the defaults. -/
def parseArgs (args : List String) : String × String :=
  scanArgs args defaultArch defaultOutput

/-- Whether a path string begins with the separator `/`. -/
def startsWithSlash (s : String) : Bool :=
  match s.data with
  | [] => false
  | c :: _ => c = '/'

/-- Whether a path string ends with the separator `/`. -/
def endsWithSlash (s : String) : Bool :=
  match s.data.getLast? with
  | some c => c = '/'
  | none => false

/-- Model of `os.path.join` (POSIX, two components): an absolute second
component replaces the path; otherwise a separator is inserted unless the
first component is empty or already ends with one. -/
def pathJoin (a b : String) : String :=
  if startsWithSlash b then b
  else if a = "" ∨ endsWithSlash a then a ++ b
  else a ++ "/" ++ b

/-- Split a character list into the groups between `/` separators. -/
def splitSlashAux : List Char → List (List Char)
  | [] => [[]]
  | c :: cs =>
    match splitSlashAux cs with
    | [] => [[]]
    | g :: gs => if c = '/' then [] :: g :: gs else (c :: g) :: gs

/-- The `/`-separated components of a path string (as `"a/b".split("/")`
would produce them). -/
def splitOnSlash (s : String) : List String :=
  (splitSlashAux s.data).map (fun l => String.mk l)

/-- `out_file = os.path.join(output, "libjava-tree-sitter.dylib")`. -/
def outFile (output : String) : String := pathJoin output dylibName

/-- The argv list handed to `subprocess.run`. -/
def compilerArgv (output : String) : List String :=
  ["clang", "-arch", "arm64", "-shared", "-o", outFile output, "-x", "c", "-"]

/-- Observable side effects of `main`, in order. -/
inductive Effect where
  | makedirs (path : String) (exist_ok : Bool)
  | runSubprocess (argv : List String) (stdin : String) (check : Bool)
  | printLine (msg : String)
deriving DecidableEq

/-- The effect trace of `main` on a given argument list: create the output
directory, print the progress line, run the compiler on the stub source,
print the done line. -/
def mainEffects (args : List String) : List Effect :=
  let arch := (parseArgs args).1
  let output := (parseArgs args).2
  let out_file := outFile output
  [ Effect.makedirs output true,
    Effect.printLine ("🔧 Compiling dummy native library for " ++ arch ++ " -> " ++ out_file),
    Effect.runSubprocess (compilerArgv output) stubSource true,
    Effect.printLine "✅ Done." ]

/-- Recognize the subprocess effect in the trace. -/
def isRunSubprocess : Effect → Bool
  | Effect.runSubprocess _ _ _ => true
  | _ => false

/-- The compiler invocation: the argv list passed to the subprocess and the
bytes supplied on its standard input. -/
structure Invocation where
  argv : List String
  stdin : String
deriving DecidableEq

/-- The compiler invocation `main` performs for a given argument list. -/
def invocation (args : List String) : Invocation :=
  { argv := compilerArgv (parseArgs args).2, stdin := stubSource }

/-- Insert a directory (a list of path components) into the filesystem state
unless it is already present. -/
def insertDir (fs : List (List String)) (d : List String) : List (List String) :=
  if d ∈ fs then fs else fs ++ [d]

/-- The nonempty component prefixes of a path: the chain of directories
`os.makedirs` ensures, outermost first. -/
def dirChain (comps : List String) : List (List String) :=
  (List.range comps.length).map (fun n => comps.take (n + 1))

/-- Model of `os.makedirs(path, exist_ok=...)`: the filesystem state is the
list of existing directories, each split into path components.  It creates the
directory and every intermediate directory; it raises `FileExistsError` only
when the target directory already exists and `exist_ok` is false. -/
def makedirs (fs : List (List String)) (path : String) (exist_ok : Bool) :
    Except String (List (List String)) :=
  let comps := splitOnSlash path
  if comps ∈ fs ∧ exist_ok = false then Except.error "FileExistsError"
  else Except.ok ((dirChain comps).foldl insertDir fs)

/-- Model of the `check=True` handling in `subprocess.run`: a
`CalledProcessError` fault is raised exactly when the subprocess returncode is
nonzero. -/
def runWithCheck (returncode : Int) : Except String Unit :=
  if returncode ≠ 0 then Except.error "CalledProcessError" else Except.ok ()

/-- The process exit code of the script as a function of the compiler
returncode: an unhandled fault terminates the interpreter with exit code 1,
otherwise the script falls off the end of `main` and exits 0. -/
def processExitCode (returncode : Int) : Int :=
  match runWithCheck returncode with
  | Except.ok _ => 0
  | Except.error _ => 1

/-!  Helper lemmas about the scanner. -/

/-- The architecture result of the scan does not depend on the output accumulator. -/
theorem scanArgs_fst_indep :
    ∀ (l : List String) (a o o' : String), (scanArgs l a o).1 = (scanArgs l a o').1 := by
  intro l
  induction l with
  | nil => intro a o o'; rfl
  | cons x t ih =>
    intro a o o'
    cases t with
    | nil => rfl
    | cons w r =>
      simp only [scanArgs]
      split_ifs with h1 h2
      · exact ih w o o'
      · rfl
      · exact ih a o o'

/-- The output result of the scan does not depend on the arch accumulator. -/
theorem scanArgs_snd_indep :
    ∀ (l : List String) (a a' o : String), (scanArgs l a o).2 = (scanArgs l a' o).2 := by
  intro l
  induction l with
  | nil => intro a a' o; rfl
  | cons x t ih =>
    intro a a' o
    cases t with
    | nil => rfl
    | cons w r =>
      simp only [scanArgs]
      split_ifs with h1 h2
      · rfl
      · exact ih a a' w
      · exact ih a a' o

/-- A list free of `-a` and `-o` tokens leaves both accumulators untouched. -/
theorem scanArgs_no_flags :
    ∀ (l : List String) (a o : String), "-a" ∉ l → "-o" ∉ l → scanArgs l a o = (a, o) := by
  intro l
  induction l with
  | nil => intro a o _ _; rfl
  | cons x t ih =>
    intro a o ha ho
    have hxa : x ≠ "-a" := fun h => ha (h ▸ List.mem_cons_self x t)
    have hxo : x ≠ "-o" := fun h => ho (h ▸ List.mem_cons_self x t)
    cases t with
    | nil => rfl
    | cons w r =>
      simp only [scanArgs, if_neg hxa, if_neg hxo]
      exact ih a o (fun h => ha (List.mem_cons_of_mem x h))
        (fun h => ho (List.mem_cons_of_mem x h))

/-- Any directory already in the state stays there through a fold of inserts. -/
theorem mem_foldl_insertDir_of_mem (ds : List (List String)) :
    ∀ (fs : List (List String)) (a : List String), a ∈ fs → a ∈ ds.foldl insertDir fs := by
  induction ds with
  | nil => intro fs a h; exact h
  | cons d t ih =>
    intro fs a h
    refine ih (insertDir fs d) a ?_
    unfold insertDir
    split_ifs with hd
    · exact h
    · exact List.mem_append_left _ h

/-- Every directory in the inserted list is present after the fold. -/
theorem mem_foldl_insertDir_of_mem_list (ds : List (List String)) :
    ∀ (fs : List (List String)) (d : List String), d ∈ ds → d ∈ ds.foldl insertDir fs := by
  induction ds with
  | nil => intro fs d h; exact absurd h (List.not_mem_nil d)
  | cons x t ih =>
    intro fs d h
    rcases List.mem_cons.mp h with h | h
    · subst h
      refine mem_foldl_insertDir_of_mem t _ d ?_
      unfold insertDir
      split_ifs with hd
      · exact hd
      · exact List.mem_append_right _ (List.mem_singleton.mpr rfl)
    · exact ih _ d h

/-- Inserting directories that are all already present changes nothing. -/
theorem foldl_insertDir_id (ds : List (List String)) :
    ∀ (fs : List (List String)), (∀ d ∈ ds, d ∈ fs) → ds.foldl insertDir fs = fs := by
  induction ds with
  | nil => intro fs _; rfl
  | cons x t ih =>
    intro fs h
    have hx : insertDir fs x = fs := by
      unfold insertDir
      exact if_pos (h x (List.mem_cons_self x t))
    rw [List.foldl_cons, hx]
    exact ih fs (fun d hd => h d (List.mem_cons_of_mem x hd))

/-- Claim C8: directory preparation with `exist_ok=True` always succeeds and is
idempotent: the first run yields a state on which a second run is a no-op, and
when the directory chain already exists the call leaves the filesystem
unchanged and raises no error. -/
theorem claim_C8 (fs : List (List String)) (path : String) :
    (∃ fs1, makedirs fs path true = Except.ok fs1 ∧ makedirs fs1 path true = Except.ok fs1)
    ∧ ((∀ d ∈ dirChain (splitOnSlash path), d ∈ fs) → makedirs fs path true = Except.ok fs) := by
  constructor
  · refine ⟨(dirChain (splitOnSlash path)).foldl insertDir fs, ?_, ?_⟩
    · simp [makedirs]
    · simp only [makedirs, Bool.true_eq_false, and_false, if_false, Except.ok.injEq]
      exact foldl_insertDir_id _ _ (fun d hd => mem_foldl_insertDir_of_mem_list _ fs d hd)
  · intro h
    simp only [makedirs, Bool.true_eq_false, and_false, if_false, Except.ok.injEq]
    exact foldl_insertDir_id _ fs h

/-- Witness for C8: the directory chain of the default output path, already
present, is left untouched without error. -/
theorem claim_C8_witness :
    makedirs [["build"], ["build", "libjava-tree-sitter"]] "build/libjava-tree-sitter" true
      = Except.ok [["build"], ["build", "libjava-tree-sitter"]] :=
  (claim_C8 [["build"], ["build", "libjava-tree-sitter"]] "build/libjava-tree-sitter").2 (by decide)

/-- Claim C7: the checked subprocess call raises a fault exactly when the
compiler returncode is nonzero; the fault being unhandled, the process exit
code is 0 exactly on returncode 0 and 1 (nonzero) otherwise. -/
theorem claim_C7 (rc : Int) :
    ((∃ e, runWithCheck rc = Except.error e) ↔ rc ≠ 0)
    ∧ (processExitCode rc = 0 ↔ rc = 0)
    ∧ (rc ≠ 0 → processExitCode rc = 1) := by
  by_cases h : rc = 0
  · subst h
    refine ⟨?_, ?_, ?_⟩ <;> simp [runWithCheck, processExitCode]
  · refine ⟨?_, ?_, ?_⟩ <;> simp [runWithCheck, processExitCode, h]

/-- Witness for C7 at returncode 2: the process exits 1. -/
theorem claim_C7_witness : processExitCode 2 = 1 :=
  (claim_C7 2).2.2 (by decide)

/-- If no `-a` token in the list has a following token, the scan leaves the
arch accumulator untouched. -/
theorem scanArgs_fst_frozen :
    ∀ (l : List String) (a o : String),
      (∀ m, l.get? m = some "-a" → l.get? (m + 1) = none) →
      (scanArgs l a o).1 = a := by
  intro l
  induction l with
  | nil => intro a o _; rfl
  | cons x t ih =>
    intro a o h
    cases t with
    | nil => rfl
    | cons w r =>
      have hxa : x ≠ "-a" := fun hx => Option.noConfusion (h 0 (by rw [hx]; rfl))
      simp only [scanArgs, if_neg hxa]
      split_ifs with hxo
      · exact ih a w (fun m hm => h (m + 1) hm)
      · exact ih a o (fun m hm => h (m + 1) hm)

/-- If no `-o` token in the list has a following token, the scan leaves the
output accumulator untouched. -/
theorem scanArgs_snd_frozen :
    ∀ (l : List String) (a o : String),
      (∀ m, l.get? m = some "-o" → l.get? (m + 1) = none) →
      (scanArgs l a o).2 = o := by
  intro l
  induction l with
  | nil => intro a o _; rfl
  | cons x t ih =>
    intro a o h
    cases t with
    | nil => rfl
    | cons w r =>
      have hxo : x ≠ "-o" := fun hx => Option.noConfusion (h 0 (by rw [hx]; rfl))
      simp only [scanArgs]
      split_ifs with hxa
      · exact ih w o (fun m hm => h (m + 1) hm)
      · exact ih a o (fun m hm => h (m + 1) hm)

/-- The last `-a` flag that has a following token determines the arch result. -/
theorem scanArgs_fst_last :
    ∀ (i : Nat) (l : List String) (v a o : String),
      l.get? i = some "-a" → l.get? (i + 1) = some v →
      (∀ k, i < k → l.get? k = some "-a" → l.get? (k + 1) = none) →
      (scanArgs l a o).1 = v := by
  intro i
  induction i with
  | zero =>
    intro l v a o h0 h1 hlast
    cases l with
    | nil => exact Option.noConfusion h0
    | cons x t =>
      cases t with
      | nil => exact Option.noConfusion h1
      | cons w r =>
        have hx : x = "-a" := Option.some.inj h0
        have hw : w = v := Option.some.inj h1
        subst hx; subst hw
        simp only [scanArgs, if_pos rfl]
        exact scanArgs_fst_frozen (w :: r) w o
          (fun m hm => hlast (m + 1) (Nat.succ_pos m) hm)
  | succ j ih =>
    intro l v a o h0 h1 hlast
    cases l with
    | nil => exact Option.noConfusion h0
    | cons x t =>
      cases t with
      | nil => exact Option.noConfusion h0
      | cons w r =>
        have hr : ∀ (a' o' : String), (scanArgs (w :: r) a' o').1 = v :=
          fun a' o' => ih (w :: r) v a' o' h0 h1
            (fun k hk hks => hlast (k + 1) (Nat.succ_lt_succ hk) hks)
        simp only [scanArgs]
        split_ifs with hxa hxo
        · exact hr w o
        · exact hr a w
        · exact hr a o

/-- The last `-o` flag that has a following token determines the output result. -/
theorem scanArgs_snd_last :
    ∀ (i : Nat) (l : List String) (v a o : String),
      l.get? i = some "-o" → l.get? (i + 1) = some v →
      (∀ k, i < k → l.get? k = some "-o" → l.get? (k + 1) = none) →
      (scanArgs l a o).2 = v := by
  intro i
  induction i with
  | zero =>
    intro l v a o h0 h1 hlast
    cases l with
    | nil => exact Option.noConfusion h0
    | cons x t =>
      cases t with
      | nil => exact Option.noConfusion h1
      | cons w r =>
        have hx : x = "-o" := Option.some.inj h0
        have hw : w = v := Option.some.inj h1
        subst hx; subst hw
        have hne : ("-o" : String) ≠ "-a" := by decide
        simp only [scanArgs, if_neg hne, if_pos rfl]
        exact scanArgs_snd_frozen (w :: r) a w
          (fun m hm => hlast (m + 1) (Nat.succ_pos m) hm)
  | succ j ih =>
    intro l v a o h0 h1 hlast
    cases l with
    | nil => exact Option.noConfusion h0
    | cons x t =>
      cases t with
      | nil => exact Option.noConfusion h0
      | cons w r =>
        have hr : ∀ (a' o' : String), (scanArgs (w :: r) a' o').2 = v :=
          fun a' o' => ih (w :: r) v a' o' h0 h1
            (fun k hk hks => hlast (k + 1) (Nat.succ_lt_succ hk) hks)
        simp only [scanArgs]
        split_ifs with hxa hxo
        · exact hr w o
        · exact hr a w
        · exact hr a o

/-- A leading token that is not `-o` never changes the output result: the scan
of the remaining positions decides it. -/
theorem scanArgs_snd_skip (v : String) (r : List String) (a o : String) (hv : v ≠ "-o") :
    (scanArgs (v :: r) a o).2 = (scanArgs r a o).2 := by
  cases r with
  | nil => rfl
  | cons w s =>
    simp only [scanArgs]
    split_ifs with hva
    · exact scanArgs_snd_indep (w :: s) w a o
    · rfl

/-- Two equally long argument lists that agree everywhere except right after a
shared `-a` token, where neither holds the token `-o`, scan to the same
output value. -/
theorem scanArgs_snd_congr :
    ∀ (j : Nat) (l1 l2 : List String) (a1 a2 o : String),
      l1.length = l2.length →
      l1.get? j = some "-a" →
      (∀ k, k ≠ j + 1 → l1.get? k = l2.get? k) →
      l1.get? (j + 1) ≠ some "-o" →
      l2.get? (j + 1) ≠ some "-o" →
      (scanArgs l1 a1 o).2 = (scanArgs l2 a2 o).2 := by
  intro j
  induction j with
  | zero =>
    intro l1 l2 a1 a2 o hlen h0 hagree hne1 hne2
    cases l1 with
    | nil => exact Option.noConfusion h0
    | cons x1 t1 =>
      cases l2 with
      | nil => exact absurd hlen (by simp)
      | cons x2 t2 =>
        have hx1 : x1 = "-a" := Option.some.inj h0
        have hx2 : x2 = "-a" := Option.some.inj ((hagree 0 (by decide)).symm.trans h0)
        subst hx1; subst hx2
        cases t1 with
        | nil =>
          cases t2 with
          | nil => rfl
          | cons w2 s2 => exact absurd hlen (by simp)
        | cons w1 s1 =>
          cases t2 with
          | nil => exact absurd hlen (by simp)
          | cons w2 s2 =>
            have hw1 : w1 ≠ "-o" := fun h => hne1 (by rw [h]; rfl)
            have hw2 : w2 ≠ "-o" := fun h => hne2 (by rw [h]; rfl)
            have hs : s1 = s2 := List.ext_get? (fun n => hagree (n + 2) (by omega))
            subst hs
            simp only [scanArgs, if_pos rfl]
            calc (scanArgs (w1 :: s1) w1 o).2
                = (scanArgs s1 w1 o).2 := scanArgs_snd_skip w1 s1 w1 o hw1
              _ = (scanArgs s1 w2 o).2 := scanArgs_snd_indep s1 w1 w2 o
              _ = (scanArgs (w2 :: s1) w2 o).2 := (scanArgs_snd_skip w2 s1 w2 o hw2).symm
  | succ j ih =>
    intro l1 l2 a1 a2 o hlen h0 hagree hne1 hne2
    cases l1 with
    | nil => exact Option.noConfusion h0
    | cons x1 t1 =>
      cases t1 with
      | nil => exact Option.noConfusion h0
      | cons w1 s1 =>
        cases l2 with
        | nil => exact absurd hlen (by simp)
        | cons x2 t2 =>
          cases t2 with
          | nil => exact absurd hlen (by simp)
          | cons w2 s2 =>
            have hx : x1 = x2 := Option.some.inj (hagree 0 (by omega)).symm |>.symm
            have hw : w1 = w2 := Option.some.inj (hagree 1 (by omega)).symm |>.symm
            subst hx; subst hw
            have hstep : ∀ (b1 b2 p : String),
                (scanArgs (w1 :: s1) b1 p).2 = (scanArgs (w1 :: s2) b2 p).2 :=
              fun b1 b2 p => ih (w1 :: s1) (w1 :: s2) b1 b2 p
                (by simpa using hlen) h0
                (fun k hk => hagree (k + 1) (by omega))
                hne1 hne2
            simp only [scanArgs]
            split_ifs with hxa hxo
            · exact hstep w1 w1 o
            · exact hstep a1 a2 w1
            · exact hstep a1 a2 o

/-- Claim C1 counterexample: `["-a", "x86", "P"]` and `["-a", "-o", "P"]`
differ only in the value right after the `-a` flag, yet the compiler
invocations differ, because the value `-o` is itself scanned as a flag and
redirects the output path. -/
theorem claim_C1_cex :
    (List.length ["-a", "x86", "P"] = List.length ["-a", "-o", "P"]
      ∧ List.get? ["-a", "x86", "P"] 0 = some "-a"
      ∧ (∀ k, k ≠ 1 → List.get? ["-a", "x86", "P"] k = List.get? ["-a", "-o", "P"] k))
    ∧ invocation ["-a", "x86", "P"] ≠ invocation ["-a", "-o", "P"] := by
  refine ⟨⟨rfl, rfl, ?_⟩, by decide⟩
  intro k hk
  match k with
  | 0 => rfl
  | 1 => exact absurd rfl hk
  | 2 => rfl
  | (n + 3) => rfl

/-- Claim C1 (amended): two equally long argument lists that differ only in
the value right after a `-a` flag, where neither differing value is the token
`-o`, yield the same compiler invocation (same argv, same stdin): the parsed
architecture has no effect on the compiler command, which hardcodes `arm64`. -/
theorem claim_C1 (l1 l2 : List String) (j : Nat)
    (hlen : l1.length = l2.length)
    (hflag : l1.get? j = some "-a")
    (hagree : ∀ k, k ≠ j + 1 → l1.get? k = l2.get? k)
    (hne1 : l1.get? (j + 1) ≠ some "-o")
    (hne2 : l2.get? (j + 1) ≠ some "-o") :
    invocation l1 = invocation l2 := by
  have h2 : (parseArgs l1).2 = (parseArgs l2).2 :=
    scanArgs_snd_congr j l1 l2 defaultArch defaultArch defaultOutput hlen hflag hagree hne1 hne2
  simp only [invocation, compilerArgv, outFile, h2]

/-- Witness for C1: `["-a", "x86"]` and `["-a", "arm"]` produce the same
compiler invocation. -/
theorem claim_C1_witness : invocation ["-a", "x86"] = invocation ["-a", "arm"] :=
  claim_C1 ["-a", "x86"] ["-a", "arm"] 0 rfl rfl
    (fun k hk => by
      match k with
      | 0 => rfl
      | 1 => exact absurd rfl hk
      | (n + 2) => rfl)
    (by decide) (by decide)

/-- Appending a trailing `-a` to a list whose last token is neither `-a` nor
`-o` leaves the scan unchanged. -/
theorem scanArgs_append_a :
    ∀ (l : List String) (a o : String),
      l.getLast? ≠ some "-a" → l.getLast? ≠ some "-o" →
      scanArgs (l ++ ["-a"]) a o = scanArgs l a o := by
  intro l
  induction l with
  | nil => intro a o _ _; rfl
  | cons x t ih =>
    intro a o ha ho
    cases t with
    | nil =>
      have hxa : x ≠ "-a" := fun h => ha (by rw [h]; rfl)
      have hxo : x ≠ "-o" := fun h => ho (by rw [h]; rfl)
      simp only [List.cons_append, List.nil_append, scanArgs, if_neg hxa, if_neg hxo]
    | cons w r =>
      have ha' : (w :: r).getLast? ≠ some "-a" := by
        rwa [List.getLast?_cons_cons] at ha
      have ho' : (w :: r).getLast? ≠ some "-o" := by
        rwa [List.getLast?_cons_cons] at ho
      simp only [List.cons_append, scanArgs]
      split_ifs with hxa hxo
      · exact ih w o ha' ho'
      · exact ih a w ha' ho'
      · exact ih a o ha' ho'

/-- Claim C6 counterexample: `["-o", "-a"]` ends in a bare `-a`, yet the
trailing flag is not ignored: it is consumed as the value of `-o`, so the
program behaves differently from `["-o"]`. -/
theorem claim_C6_cex :
    List.getLast? ["-o", "-a"] = some "-a"
    ∧ parseArgs ["-o", "-a"] ≠ parseArgs ["-o"]
    ∧ mainEffects ["-o", "-a"] ≠ mainEffects ["-o"] := by decide

/-- Claim C6 (amended): appending a trailing `-a` (with no following value) to
an argument list whose last token is not itself a flag (`-a` or `-o`) raises
no error and leaves the whole behavior unchanged: same scan result and same
effect trace as without the trailing `-a`. -/
theorem claim_C6 (l : List String)
    (ha : l.getLast? ≠ some "-a") (ho : l.getLast? ≠ some "-o") :
    parseArgs (l ++ ["-a"]) = parseArgs l
    ∧ mainEffects (l ++ ["-a"]) = mainEffects l := by
  have h : parseArgs (l ++ ["-a"]) = parseArgs l :=
    scanArgs_append_a l defaultArch defaultOutput ha ho
  refine ⟨h, ?_⟩
  simp only [mainEffects, h]

/-- Witness for C6: `["-o", "out", "-a"]` behaves exactly like `["-o", "out"]`. -/
theorem claim_C6_witness :
    parseArgs (["-o", "out"] ++ ["-a"]) = parseArgs ["-o", "out"]
    ∧ mainEffects (["-o", "out"] ++ ["-a"]) = mainEffects ["-o", "out"] :=
  claim_C6 ["-o", "out"] (by decide) (by decide)

/-- Claim C5 counterexample: the list `["-a", "X", "-a", "Y"]` contains the
token `-a` followed by the token `X`, yet the scanned architecture is not `X`
(the later occurrence wins). -/
theorem claim_C5_cex :
    List.get? ["-a", "X", "-a", "Y"] 0 = some "-a"
    ∧ List.get? ["-a", "X", "-a", "Y"] 1 = some "X"
    ∧ (parseArgs ["-a", "X", "-a", "Y"]).1 ≠ "X"
    ∧ (parseArgs ["-a", "X", "-a", "Y"]).1 = "Y" := by decide

/-- Claim C5 (amended): for every argument list containing `-a` followed by a
token `x`, where no later `-a` occurrence has a following token, the scanned
architecture equals `x`. -/
theorem claim_C5 (args : List String) (i : Nat) (x : String)
    (h0 : args.get? i = some "-a") (h1 : args.get? (i + 1) = some x)
    (h2 : ∀ k, i < k → args.get? k = some "-a" → args.get? (k + 1) = none) :
    (parseArgs args).1 = x :=
  scanArgs_fst_last i args x defaultArch defaultOutput h0 h1 h2

/-- Witness for C5 at the list `["-a", "x86"]`. -/
theorem claim_C5_witness : (parseArgs ["-a", "x86"]).1 = "x86" :=
  claim_C5 ["-a", "x86"] 0 "x86" rfl rfl
    (fun k hk h => by
      match k with
      | 0 => exact absurd hk (by decide)
      | 1 => exact absurd h (by decide)
      | (n + 2) => exact rfl)

/-- Claim C3 counterexample: the list `["-o", "A", "-o", "B"]` contains the
token `-o` followed by the token `A`, yet the computed artifact path is not
the join of `A` with the dylib name (the later occurrence wins). -/
theorem claim_C3_cex :
    List.get? ["-o", "A", "-o", "B"] 0 = some "-o"
    ∧ List.get? ["-o", "A", "-o", "B"] 1 = some "A"
    ∧ outFile (parseArgs ["-o", "A", "-o", "B"]).2 ≠ pathJoin "A" "libjava-tree-sitter.dylib"
    ∧ outFile (parseArgs ["-o", "A", "-o", "B"]).2 = pathJoin "B" "libjava-tree-sitter.dylib" := by
  decide

/-- Claim C3 (amended): for every argument list containing `-o` followed by a
token `p`, where no later `-o` occurrence has a following token, the artifact
path passed to the compiler is the join of `p` and the fixed dylib name. -/
theorem claim_C3 (args : List String) (i : Nat) (p : String)
    (h0 : args.get? i = some "-o") (h1 : args.get? (i + 1) = some p)
    (h2 : ∀ k, i < k → args.get? k = some "-o" → args.get? (k + 1) = none) :
    outFile (parseArgs args).2 = pathJoin p "libjava-tree-sitter.dylib" := by
  have h : (parseArgs args).2 = p := scanArgs_snd_last i args p defaultArch defaultOutput h0 h1 h2
  rw [h]
  rfl

/-- Witness for C3 at the list `["-o", "out"]`. -/
theorem claim_C3_witness :
    outFile (parseArgs ["-o", "out"]).2 = pathJoin "out" "libjava-tree-sitter.dylib" :=
  claim_C3 ["-o", "out"] 0 "out" rfl rfl
    (fun k hk h => by
      match k with
      | 0 => exact absurd hk (by decide)
      | 1 => exact absurd h (by decide)
      | (n + 2) => exact rfl)

/-- Claim C9: when a flag occurs several times, the last occurrence that has a
following token wins, for `-a` on the arch result and `-o` on the output
result. -/
theorem claim_C9 (args : List String) :
    (∀ i v, args.get? i = some "-a" → args.get? (i + 1) = some v →
      (∀ k, i < k → args.get? k = some "-a" → args.get? (k + 1) = none) →
      (parseArgs args).1 = v)
    ∧ (∀ i v, args.get? i = some "-o" → args.get? (i + 1) = some v →
      (∀ k, i < k → args.get? k = some "-o" → args.get? (k + 1) = none) →
      (parseArgs args).2 = v) :=
  ⟨fun i v h0 h1 h2 => scanArgs_fst_last i args v defaultArch defaultOutput h0 h1 h2,
   fun i v h0 h1 h2 => scanArgs_snd_last i args v defaultArch defaultOutput h0 h1 h2⟩

/-- Witness for C9 on doubled `-a` and doubled `-o` lists: the later value wins. -/
theorem claim_C9_witness :
    (parseArgs ["-a", "u", "-a", "v"]).1 = "v" ∧ (parseArgs ["-o", "p", "-o", "q"]).2 = "q" :=
  ⟨(claim_C9 ["-a", "u", "-a", "v"]).1 2 "v" rfl rfl
      (fun k hk h => by
        match k with
        | 0 => exact absurd hk (by decide)
        | 1 => exact absurd hk (by decide)
        | 2 => exact absurd hk (by decide)
        | 3 => exact absurd h (by decide)
        | (n + 4) => exact rfl),
   (claim_C9 ["-o", "p", "-o", "q"]).2 2 "q" rfl rfl
      (fun k hk h => by
        match k with
        | 0 => exact absurd hk (by decide)
        | 1 => exact absurd hk (by decide)
        | 2 => exact absurd hk (by decide)
        | 3 => exact absurd h (by decide)
        | (n + 4) => exact rfl)⟩

/-!  Claim theorems. -/

/-- Claim C4: for every argument list containing neither `-a` nor `-o`
(arbitrary unrecognized tokens are silently ignored), the scanner yields the
default architecture `aarch64` and the default output directory
`build/libjava-tree-sitter`. -/
theorem claim_C4 (args : List String) (ha : "-a" ∉ args) (ho : "-o" ∉ args) :
    parseArgs args = ("aarch64", "build/libjava-tree-sitter") :=
  scanArgs_no_flags args defaultArch defaultOutput ha ho

/-- Witness for C4 at a concrete list of unrecognized tokens. -/
theorem claim_C4_witness :
    parseArgs ["foo", "--bar", "baz"] = ("aarch64", "build/libjava-tree-sitter") :=
  claim_C4 ["foo", "--bar", "baz"] (by decide) (by decide)

/-- Claim C10: the scanner examines every position as a potential flag, a
flag's value token included: for any token `p`, the list `["-a", "-o", p]`
sets the architecture to the string `-o` and the output directory to `p`. -/
theorem claim_C10 (p : String) : parseArgs ["-a", "-o", p] = ("-o", p) := by
  simp [parseArgs, scanArgs]

/-- Claim C2: on every argument list the trace contains exactly one subprocess
run, whose argv is the fixed clang command around the computed output path and
whose stdin is the stub source; the artifact path is the fixed dylib name
joined onto the output directory. -/
theorem claim_C2 (args : List String) :
    (mainEffects args).filter isRunSubprocess
        = [Effect.runSubprocess
            ["clang", "-arch", "arm64", "-shared", "-o",
              outFile (parseArgs args).2, "-x", "c", "-"]
            "void foo()\x7b\x7d" true]
      ∧ outFile (parseArgs args).2 = pathJoin (parseArgs args).2 "libjava-tree-sitter.dylib" := by
  constructor
  · simp [mainEffects, isRunSubprocess, List.filter, compilerArgv, stubSource]
  · rfl

end BuildPy
